import Mathlib

/-!
Shallow embedding of `pi_1wire/sensors.py` (the sensor polling engine,
history buffer, statistics, SysFS parsing and manager configuration
loading).  Times are rationals (Python floats), timestamps are integers
(Python `int`), sensor values are rationals.
-/

/-- Error code `SENSOR_UNREADABLE = 1` from `sensors.py`. -/
def SENSOR_UNREADABLE : ℕ := 1

/-- Error code `SENSOR_FORMAT_INVALID = 2` from `sensors.py`. -/
def SENSOR_FORMAT_INVALID : ℕ := 2

/-- Error code `SENSOR_CRC_INVALID = 4` from `sensors.py`. -/
def SENSOR_CRC_INVALID : ℕ := 4

/-- One history entry `[ts, reading]` as appended by `BaseSensor.run` and
`MockSensor._preseed`: an interval-aligned timestamp and an optional value
(`none` models Python `None`, a failed sample). -/
structure Reading where
  ts : ℤ
  val : Option ℚ
  deriving DecidableEq

/-- Floor of a rational, computed directly (`Int.fdiv` of numerator by
denominator); equal to `⌊q⌋` (see `ratFloor_eq_floor`). -/
def ratFloor (q : ℚ) : ℤ := Int.fdiv q.num q.den

/-- Python `int()` applied to a number: truncation toward zero. -/
def pyInt (q : ℚ) : ℤ := if 0 ≤ q then ratFloor q else -ratFloor (-q)

/-- `BaseSensor.ts(offset)`: `self.interval * int((time.time() + offset) / self.interval)`. -/
def tsAligned (interval : ℤ) (now offset : ℚ) : ℤ :=
  interval * pyInt ((now + offset) / (interval : ℚ))

/-- `collections.deque(maxlen=maxlen).append(x)`: the new element goes to the
right; if the deque would exceed `maxlen`, elements are discarded from the
left.  (Along append-only histories `buf.length ≤ maxlen`, so at most one
element — the oldest — is discarded.) -/
def dequeAppend {α : Type} (maxlen : ℕ) (buf : List α) (x : α) : List α :=
  (buf ++ [x]).drop (buf.length + 1 - maxlen)

/-- Buffer states reachable from construction
(`self._readings = collections.deque([], maxlen=max_history)`) by appends
only: `_readings.append(...)` in `BaseSensor.run` and in
`MockSensor._preseed` are the only mutations of the buffer in the source. -/
inductive BufReachable (maxlen : ℕ) : List Reading → Prop
  | init : BufReachable maxlen []
  | step {b : List Reading} (r : Reading) :
      BufReachable maxlen b → BufReachable maxlen (dequeAppend maxlen b r)

/-- `BaseSensor.last(n)`: `if n > len: return list(deque)` else the
comprehension `[self._readings[i] for i in xrange(0-n, 0)]`, i.e. the last
`n` entries in order (empty for `n = 0`). -/
def last (buf : List Reading) (n : ℕ) : List Reading :=
  if n > buf.length then buf else buf.drop (buf.length - n)

/-- The comprehension `[x[1] for x in self.readings if x[1]]` in
`BaseSensor.stats`: the values kept are those that are Python-truthy, i.e.
not `None` and not `0.0`. -/
def validValues (buf : List Reading) : List ℚ :=
  buf.filterMap fun r =>
    match r.val with
    | some q => if q = 0 then none else some q
    | none => none

/-- Python `min(list)` as a left fold (absent on the empty list). -/
def listMin : List ℚ → Option ℚ
  | [] => none
  | x :: xs => some (xs.foldl min x)

/-- Python `max(list)` as a left fold (absent on the empty list). -/
def listMax : List ℚ → Option ℚ
  | [] => none
  | x :: xs => some (xs.foldl max x)

/-- Python `sum(list)`: left fold of `+` starting from 0. -/
def listSum (l : List ℚ) : ℚ := l.foldl (· + ·) 0

/-- The dictionary built by `BaseSensor.stats`. -/
structure Stats where
  name : String
  lastReading : List Reading
  min : Option ℚ
  max : Option ℚ
  mean : Option ℚ
  valid_ratio : Option ℚ
  total_readings : ℕ
  valid_readings : ℕ
  deriving DecidableEq

/-- `BaseSensor.stats()`: filters the readings through Python truthiness,
then branches on `if valid_readings:`; the absent branch leaves
min/max/mean/valid_ratio at `None`. -/
def stats (name : String) (buf : List Reading) : Stats :=
  let valid := validValues buf
  let vc := valid.length
  let tc := buf.length
  if valid.isEmpty then ⟨name, last buf 1, none, none, none, none, tc, vc⟩
  else
    ⟨name, last buf 1, listMin valid, listMax valid,
      some (listSum valid / (vc : ℚ)), some ((vc : ℚ) / (tc : ℚ)), tc, vc⟩

/-- Outcome of one `_read()` call: a value, or a `SensorError` carrying an
errno (`SENSOR_UNREADABLE`, `SENSOR_FORMAT_INVALID`, `SENSOR_CRC_INVALID`). -/
inductive ReadResult where
  | ok (v : ℚ)
  | err (errno : ℕ)
  deriving DecidableEq

/-- `BaseSensor.retryable(ts)`:
`time.time() < float(ts + self.ts(offset=self.interval)) / 2`. -/
def retryable (interval ts0 : ℤ) (now : ℚ) : Bool :=
  decide (now < ((ts0 : ℚ) + ((tsAligned interval now (interval : ℚ) : ℤ) : ℚ)) / 2)

/-- The inner `while reading is None` loop of `BaseSensor.run`, one cycle,
starting at aligned timestamp `ts0`.  `reads i` is the outcome of the
`i`-th `_read()` call and `timeAt i` the clock value at the `retryable`
check following a failed call `i`.  `fuel` bounds the attempts modelled;
`none` means the loop has not terminated within the modelled trace, `some r`
that it terminated with `reading = r` (`some none` = reading left `None`,
recorded as an absent-value Reading; no error ever escapes the loop). -/
def readLoop (interval ts0 : ℤ) (reads : ℕ → ReadResult) (timeAt : ℕ → ℚ) :
    ℕ → ℕ → Option (Option ℚ)
  | _, 0 => none
  | i, fuel + 1 =>
    match reads i with
    | .ok v => some (some v)
    | .err n =>
      if n ≠ SENSOR_CRC_INVALID then some none
      else if retryable interval ts0 (timeAt i) then
        readLoop interval ts0 reads timeAt (i + 1) fuel
      else some none

/-- Number of elements of Python `xrange(a, b, step)` for a positive step:
`max 0 (ceil ((b - a) / step))`. -/
def xrangeLen (a b step : ℤ) : ℕ :=
  if 0 < step then (Int.fdiv (b - a + step - 1) step).toNat else 0

/-- `MockSensor._preseed` (with `self.preseed = min(preseed, self.max_history)`
already applied, as in `MockSensor.__init__`): for each `i` in
`xrange(ts - (preseed+1)*interval, ts, interval)` append `[ts, self._read()]`
where `ts = self.ts()` is computed once.  `gen i` models the `i`-th value
produced by the generator. -/
def mockPreseed (maxlen : ℕ) (interval : ℤ) (now : ℚ) (preseedArg : ℕ)
    (gen : ℕ → ℚ) : List Reading :=
  let p := min preseedArg maxlen
  let t := tsAligned interval now 0
  (List.range (xrangeLen (t - ((p : ℤ) + 1) * interval) t interval)).foldl
    (fun b i => dequeAppend maxlen b ⟨t, some (gen i)⟩) []

/-- `lines[1].rindex("=")` together with the slice `lines[1][eq_index+1:]`:
the characters after the last `'='`, or `none` when `'='` does not occur in
the string (the `ValueError` branch of `rindex`). -/
def afterLastEq (s : String) : Option String :=
  if s.data.contains '=' then
    some (String.mk (s.data.reverse.takeWhile (fun ch => ch ≠ '=')).reverse)
  else none

/-- `SysFSSensor._read`.  `contents` is the probe file split into lines
(`data.splitlines()`), or `none` when opening/reading raised `IOError`.
`parseFloat` models Python `float(str)`, `none` meaning `ValueError`.
The CRC check is `lines[0][-3:] != 'YES'`, i.e. the last three characters. -/
def sysfsRead (parseFloat : String → Option ℚ) (contents : Option (List String)) :
    ReadResult :=
  match contents with
  | none => .err SENSOR_UNREADABLE
  | some [l0, l1] =>
    if l0.takeRight 3 ≠ "YES" then .err SENSOR_CRC_INVALID
    else
      match afterLastEq l1 with
      | none => .err SENSOR_FORMAT_INVALID
      | some payload =>
        match parseFloat payload with
        | none => .err SENSOR_FORMAT_INVALID
        | some q => .ok (q / 1000)
  | some _ => .err SENSOR_FORMAT_INVALID

/-- Shape of a loaded YAML value, as far as `SensorManager._load_config`
inspects it (`isinstance(..., (list, tuple))`, `isinstance(..., dict)`). -/
inductive Yaml where
  | str (s : String)
  | num (q : ℚ)
  | boolean (b : Bool)
  | list (xs : List Yaml)
  | map (kvs : List (String × Yaml))
  | null

/-- `isinstance(x, (list, tuple))` on a loaded YAML value. -/
def isListShaped : Yaml → Bool
  | .list _ => true
  | _ => false

/-- `isinstance(x, dict)` on a loaded YAML value (OrderedDict included). -/
def isMapShaped : Yaml → Bool
  | .map _ => true
  | _ => false

/-- One configured sensor entry: its `class` string and the optional
`tags` and `args` properties. -/
structure SensorConfig where
  className : String
  tags : Option Yaml
  args : Option Yaml

/-- The exception raised (if any) while `_load_config` processes one entry:
`AttributeError` from the `getattr` class lookup, or the two `TypeError`s. -/
inductive ConfigError where
  | attributeError (c : String)
  | badTags (sensor : String)
  | badArgs (sensor : String)
  deriving DecidableEq

/-- What a class-name string denotes for the manager, i.e. the outcome of
`getattr(sys.modules[__name__], c)` in `_load_config` and of the call
`c(name=sensor, **args)` in `_init_sensors`.  The manager model below is
parametric in a map `String → ClassBinding` (as `sysfsRead` is in its
numeric parser): `getattr` succeeds on every attribute the module object
has — its top-level bindings (the three sensor classes, but also imports
such as `time`, the logger `log`, helper functions, the error class and
the constants) together with the module-protocol attributes — and raises
`AttributeError` only for the rest. -/
inductive ClassBinding where
  /-- `c` is not an attribute of the module: `getattr` raises
  `AttributeError` inside `_load_config`. -/
  | absent
  /-- `c` names a sensor class (`BaseSensor`, `MockSensor`, `SysFSSensor`):
  calling it returns a sensor thread object, which is registered and then
  started. -/
  | variant
  /-- `c` names another attribute of the module, one whose call with the
  keyword argument `name=...` raises — true of modules such as `time`,
  plain functions, the logger `log` and the `SensorError` class — so
  `_load_config` passes but `_init_sensors` raises at this entry. -/
  | nonVariant
  deriving DecidableEq

/-- The exception terminating `SensorManager.__init__` (if any): one
re-raised out of `_load_config`, or the `TypeError` from calling a
non-variant binding in `_init_sensors`. -/
inductive ManagerError where
  | loadError (e : ConfigError)
  | initTypeError (sensor : String)
  deriving DecidableEq

/-- Observable outcome of `SensorManager.__init__`: the exception it raised
(if any), the keys of `self._sensors` in insertion order, and the sensors
whose `start()` ran. -/
structure ManagerResult where
  error : Option ManagerError
  registry : List String
  started : List String
  deriving DecidableEq

/-- One iteration of the loop in `SensorManager._load_config`: the
`getattr` class lookup, then the `tags` shape check (`.get('tags', [])`),
then the `args` shape check (`.get('args', {})`).  `none` = the entry
validates; note a `nonVariant` binding validates just like a variant. -/
def validateEntry (B : String → ClassBinding) (sensor : String)
    (cfg : SensorConfig) : Option ConfigError :=
  match B cfg.className with
  | .absent => some (.attributeError cfg.className)
  | _ =>
    if ¬ isListShaped (cfg.tags.getD (.list [])) then some (.badTags sensor)
    else if ¬ isMapShaped (cfg.args.getD (.map [])) then some (.badArgs sensor)
    else none

/-- `SensorManager._load_config`: entries are validated in order; the first
violation raises. -/
def loadConfig (B : String → ClassBinding) :
    List (String × SensorConfig) → Option ConfigError
  | [] => none
  | (s, cfg) :: rest =>
    match validateEntry B s cfg with
    | some e => some e
    | none => loadConfig B rest

/-- `SensorManager._init_sensors`: for each entry in order, evaluate
`sensor_config['_class'](name=sensor, **args)`, register the result under
the sensor's name, and `start()` it.  A variant constructs, registers and
starts; calling a non-variant binding raises, aborting the loop — the
sensors already processed stay registered and started. -/
def initSensors (B : String → ClassBinding) :
    List (String × SensorConfig) → ManagerResult
  | [] => ⟨none, [], []⟩
  | (s, cfg) :: rest =>
    match B cfg.className with
    | .variant =>
      let r := initSensors B rest
      ⟨r.error, s :: r.registry, s :: r.started⟩
    | _ => ⟨some (.initTypeError s), [], []⟩

/-- `SensorManager.__init__`: `_load_config` runs before `_init_sensors`;
if it raises, the exception propagates and `_init_sensors` never runs, so
the registry `self._sensors` stays empty and no sensor is started.
Otherwise `_init_sensors` processes the entries in order. -/
def managerInit (B : String → ClassBinding)
    (entries : List (String × SensorConfig)) : ManagerResult :=
  match loadConfig B entries with
  | some e => ⟨some (.loadError e), [], []⟩
  | none => initSensors B entries

/-! ## Helper lemmas -/

theorem ratFloor_eq_floor (q : ℚ) : ratFloor q = ⌊q⌋ := by
  rw [Rat.floor_def, ratFloor, Int.fdiv_eq_ediv _ (Int.natCast_nonneg q.den)]

theorem pyInt_eq_floor (q : ℚ) (h : 0 ≤ q) : pyInt q = ⌊q⌋ := by
  rw [pyInt, if_pos h, ratFloor_eq_floor]

theorem tsAligned_dvd (interval : ℤ) (now offset : ℚ) :
    interval ∣ tsAligned interval now offset :=
  dvd_mul_right interval (pyInt ((now + offset) / (interval : ℚ)))

theorem length_dequeAppend {α : Type} (m : ℕ) (b : List α) (x : α) :
    (dequeAppend m b x).length = min (b.length + 1) m := by
  simp only [dequeAppend, List.length_drop, List.length_append, List.length_cons,
    List.length_nil]
  omega

theorem mem_dequeAppend {α : Type} {m : ℕ} {b : List α} {x r : α}
    (h : r ∈ dequeAppend m b x) : r ∈ b ∨ r = x := by
  have h2 : r ∈ b ++ [x] := List.drop_subset _ _ h
  rcases List.mem_append.1 h2 with h3 | h3
  · exact Or.inl h3
  · exact Or.inr (List.mem_singleton.1 h3)

theorem dequeAppend_at_capacity {α : Type} (m : ℕ) (hm : 0 < m) (b : List α) (x : α)
    (hlen : b.length = m) : dequeAppend m b x = b.tail ++ [x] := by
  have h1 : b.length + 1 - m = 1 := by omega
  rw [dequeAppend, h1, List.drop_append_of_le_length (by omega), List.drop_one]

theorem bufReachable_length_le {m : ℕ} {b : List Reading} (h : BufReachable m b) :
    b.length ≤ m := by
  induction h with
  | init => exact Nat.zero_le m
  | step r _ ih => rw [length_dequeAppend]; omega

theorem bufReachable_foldl {m : ℕ} {b0 : List Reading} (h : BufReachable m b0)
    (l : List ℕ) (f : ℕ → Reading) :
    BufReachable m (l.foldl (fun b i => dequeAppend m b (f i)) b0) := by
  induction l generalizing b0 with
  | nil => exact h
  | cons a l ih => exact ih (BufReachable.step (f a) h)

theorem length_foldl_dequeAppend {m : ℕ} (l : List ℕ) (f : ℕ → Reading)
    (b0 : List Reading) (h : b0.length ≤ m) :
    (l.foldl (fun b i => dequeAppend m b (f i)) b0).length = min (b0.length + l.length) m := by
  induction l generalizing b0 with
  | nil => simp; omega
  | cons a l ih =>
    have h1 : (dequeAppend m b0 (f a)).length = min (b0.length + 1) m :=
      length_dequeAppend m b0 (f a)
    have h2 : (dequeAppend m b0 (f a)).length ≤ m := by omega
    have h3 := ih (dequeAppend m b0 (f a)) h2
    simp only [List.foldl_cons, List.length_cons]
    rw [h3, h1]
    omega

theorem mem_foldl_dequeAppend {m : ℕ} {P : Reading → Prop} (l : List ℕ)
    (f : ℕ → Reading) (b0 : List Reading) (h0 : ∀ r ∈ b0, P r)
    (hf : ∀ i ∈ l, P (f i)) :
    ∀ r ∈ l.foldl (fun b i => dequeAppend m b (f i)) b0, P r := by
  induction l generalizing b0 with
  | nil => exact h0
  | cons a l ih =>
    refine ih (dequeAppend m b0 (f a)) ?_ (fun i hi => hf i (List.mem_cons_of_mem a hi))
    intro r hr
    rcases mem_dequeAppend hr with h | h
    · exact h0 r h
    · rw [h]; exact hf a (List.mem_cons_self a l)

/-! ## C1 -/

/-- C1: for every sensor and after every operation (construction, preseeding
and every polling-cycle append — together these are exactly the
`BufReachable` states, appends being the only mutation of
`self._readings` in the source), the history length never exceeds
`max_history`; an append onto a buffer at capacity drops the oldest entry
(the head) and inserts the newest at the back; and the preseeded buffer of a
`MockSensor` is itself built only from such appends. -/
theorem history_bounded_fifo (m : ℕ) (hm : 0 < m) :
    (∀ b : List Reading, BufReachable m b → b.length ≤ m) ∧
    (∀ (b : List Reading) (r : Reading), b.length = m →
      dequeAppend m b r = b.tail ++ [r]) ∧
    (∀ (interval : ℤ) (now : ℚ) (p : ℕ) (gen : ℕ → ℚ),
      BufReachable m (mockPreseed m interval now p gen)) := by
  refine ⟨fun b h => bufReachable_length_le h,
    fun b r hlen => dequeAppend_at_capacity m hm b r hlen,
    fun interval now p gen => ?_⟩
  exact bufReachable_foldl BufReachable.init _ _

/-- Witness for C1 at `max_history = 2`: a reachable two-element buffer obeys
the bound, and appending to it evicts the oldest entry. -/
theorem history_bounded_fifo_witness :
    ([⟨0, none⟩, ⟨30, none⟩] : List Reading).length ≤ 2 ∧
    dequeAppend 2 [⟨0, none⟩, ⟨30, none⟩] ⟨60, none⟩ =
      ([⟨0, none⟩, ⟨30, none⟩] : List Reading).tail ++ [⟨60, none⟩] := by
  constructor
  · exact (history_bounded_fifo 2 (by norm_num)).1 [⟨0, none⟩, ⟨30, none⟩]
      (BufReachable.step ⟨30, none⟩ (BufReachable.step ⟨0, none⟩ BufReachable.init))
  · exact (history_bounded_fifo 2 (by norm_num)).2.1 [⟨0, none⟩, ⟨30, none⟩] ⟨60, none⟩ rfl

/-! ## C5 -/

/-- C5 counterexample: on a one-element buffer, `last(0)` is the empty list,
not the whole buffer, and differs from `last(len(history))`. -/
theorem last_zero_cex :
    last [⟨0, some 1⟩] 0 ≠ [⟨0, some 1⟩] ∧
    last [⟨0, some 1⟩] 0 ≠ last [⟨0, some 1⟩] ([⟨0, some 1⟩] : List Reading).length := by
  constructor <;> decide

/-- C5 as amended: `last(0)` returns the empty list for every buffer state
(so `last(0)` and `last(len(history))` agree exactly on the empty buffer),
and for every `n` greater than the current buffer length `last(n)` returns
all available readings. -/
theorem last_spec (buf : List Reading) :
    last buf 0 = [] ∧
    (∀ n : ℕ, buf.length < n → last buf n = buf) ∧
    (last buf 0 = last buf buf.length ↔ buf = []) := by
  refine ⟨?_, ?_, ?_⟩
  · simp [last]
  · intro n hn
    rw [last, if_pos hn]
  · have h0 : last buf 0 = [] := by simp [last]
    have h1 : last buf buf.length = buf := by
      rw [last, if_neg (lt_irrefl buf.length), Nat.sub_self, List.drop_zero]
    rw [h0, h1, eq_comm]

/-- Witness for C5 on a concrete one-element buffer. -/
theorem last_spec_witness :
    last [⟨0, some 1⟩] 0 = [] ∧ last [⟨0, some 1⟩] 2 = [⟨0, some 1⟩] := by
  refine ⟨(last_spec [⟨0, some 1⟩]).1, ?_⟩
  exact (last_spec [⟨0, some 1⟩]).2.1 2 (by norm_num)

/-! ## C8 -/

/-- The number of `xrange` steps taken by `MockSensor._preseed`:
`min(preseed, max_history) + 1`. -/
theorem xrangeLen_preseed (t interval : ℤ) (q : ℕ) (hi : 0 < interval) :
    xrangeLen (t - ((q : ℤ) + 1) * interval) t interval = q + 1 := by
  rw [xrangeLen, if_pos hi]
  have h1 : t - (t - ((q : ℤ) + 1) * interval) + interval - 1 =
      (interval - 1) + ((q : ℤ) + 1) * interval := by ring
  rw [h1, Int.fdiv_eq_ediv _ (by positivity),
    Int.add_mul_ediv_right _ _ (by omega),
    Int.ediv_eq_zero_of_lt (by omega) (by omega)]
  omega

/-- Length of the `MockSensor` buffer right after `_preseed`. -/
theorem mockPreseed_length (m p : ℕ) (interval : ℤ) (now : ℚ) (gen : ℕ → ℚ)
    (hi : 0 < interval) :
    (mockPreseed m interval now p gen).length = min (min p m + 1) m := by
  simp only [mockPreseed]
  rw [xrangeLen_preseed _ _ _ hi,
    length_foldl_dequeAppend _ _ _ (by simp), List.length_range]
  simp

/-- C8 counterexample: with `preseed = 0` and `max_history = 2` the freshly
constructed `MockSensor` buffer holds one synthetic sample, exceeding
`min(preseed, max_history) = 0`. -/
theorem preseed_count_cex :
    ¬ ((mockPreseed 2 30 0 0 (fun _ => 20)).length ≤ min 0 2) := by
  rw [mockPreseed_length 2 0 30 0 (fun _ => 20) (by norm_num)]
  decide

/-- C8 as amended: for every `preseed ≥ 0` and `max_history > 0`, the
`MockSensor` buffer immediately after construction contains exactly
`min(min(preseed, max_history) + 1, max_history)` synthetic samples — hence
at most `min(preseed, max_history) + 1` of them — and is never empty. -/
theorem preseed_count_spec (m p : ℕ) (interval : ℤ) (now : ℚ) (gen : ℕ → ℚ)
    (hm : 0 < m) (hi : 0 < interval) :
    (mockPreseed m interval now p gen).length = min (min p m + 1) m ∧
    (mockPreseed m interval now p gen).length ≤ min p m + 1 ∧
    0 < (mockPreseed m interval now p gen).length := by
  have hlen := mockPreseed_length m p interval now gen hi
  exact ⟨hlen, by omega, by omega⟩

/-- Witness for C8 at `max_history = 2`, `preseed = 3`, `interval = 30`. -/
theorem preseed_count_spec_witness :
    (mockPreseed 2 30 0 3 (fun _ => 20)).length = min (min 3 2 + 1) 2 ∧
    0 < (mockPreseed 2 30 0 3 (fun _ => 20)).length :=
  ⟨(preseed_count_spec 2 3 30 0 (fun _ => 20) (by norm_num) (by norm_num)).1,
   (preseed_count_spec 2 3 30 0 (fun _ => 20) (by norm_num) (by norm_num)).2.2⟩

/-! ## C2 -/

/-- Appending a reading whose timestamp exceeds every timestamp in the
buffer preserves strictly increasing buffer order. -/
theorem pairwise_dequeAppend (m : ℕ) (buf : List Reading) (x : Reading)
    (hp : List.Pairwise (· < ·) (buf.map Reading.ts))
    (hlt : ∀ r ∈ buf, r.ts < x.ts) :
    List.Pairwise (· < ·) ((dequeAppend m buf x).map Reading.ts) := by
  have h1 : List.Pairwise (· < ·) ((buf ++ [x]).map Reading.ts) := by
    rw [List.map_append]
    refine List.pairwise_append.2 ⟨hp, List.pairwise_singleton _ _, ?_⟩
    intro a ha b hb
    rcases List.mem_map.1 ha with ⟨r, hr, rfl⟩
    rw [List.map_singleton, List.mem_singleton] at hb
    rw [hb]
    exact hlt r hr
  have h2 : (dequeAppend m buf x).map Reading.ts =
      ((buf ++ [x]).map Reading.ts).drop (buf.length + 1 - m) := by
    rw [dequeAppend, List.map_drop]
  rw [h2]
  exact h1.sublist (List.drop_sublist _ _)

/-- C2 counterexample: a `MockSensor` with `preseed = 1`, `max_history = 2`
constructed at time 0 has two buffer entries with identical timestamps, so
its timestamps are not strictly increasing immediately after
construction. -/
theorem preseed_timestamps_cex :
    ¬ List.Pairwise (· < ·)
      ((mockPreseed 2 30 0 1 (fun _ => 20)).map Reading.ts) := by
  have ht : tsAligned 30 0 0 = 0 := by
    norm_num [tsAligned, pyInt_eq_floor]
  simp only [mockPreseed, ht]
  decide

/-- C2 as amended: every timestamp a sensor ever stores is an exact multiple
of its `interval`, and the polling loop preserves strictly increasing buffer
order whenever the newly appended aligned timestamp exceeds every timestamp
already buffered; but a `MockSensor` immediately after construction has all
of its preseeded entries stamped with the same current boundary
`self.ts()` (hence only non-decreasing, not strictly increasing). -/
theorem timestamps_aligned_mono (m : ℕ) (interval : ℤ) (now : ℚ) (p : ℕ)
    (gen : ℕ → ℚ) :
    (∀ r ∈ mockPreseed m interval now p gen,
      r.ts = tsAligned interval now 0 ∧ interval ∣ r.ts) ∧
    (∀ (buf : List Reading) (t : ℚ) (v : Option ℚ),
      List.Pairwise (· < ·) (buf.map Reading.ts) →
      (∀ r ∈ buf, r.ts < tsAligned interval t 0) →
      List.Pairwise (· < ·)
        ((dequeAppend m buf ⟨tsAligned interval t 0, v⟩).map Reading.ts)) := by
  constructor
  · simp only [mockPreseed]
    refine mem_foldl_dequeAppend _ _ _ (by simp) ?_
    intro i _
    exact ⟨rfl, tsAligned_dvd interval now 0⟩
  · intro buf t v hp hlt
    exact pairwise_dequeAppend m buf ⟨tsAligned interval t 0, v⟩ hp hlt

/-- Witness for C2: a polling-cycle append at aligned time
`tsAligned 30 35 0` onto the strictly increasing buffer `[⟨0, some 1⟩]`
keeps the timestamps strictly increasing. -/
theorem timestamps_aligned_mono_witness :
    List.Pairwise (· < ·)
      ((dequeAppend 2 [⟨0, some 1⟩] ⟨tsAligned 30 35 0, none⟩).map Reading.ts) := by
  have ht : tsAligned 30 35 0 = 30 := by
    norm_num [tsAligned, pyInt_eq_floor]
  refine (timestamps_aligned_mono 2 30 35 1 (fun _ => 20)).2 [⟨0, some 1⟩] 35 none
    (by simp) ?_
  intro r hr
  rw [List.mem_singleton] at hr
  rw [hr, ht]
  norm_num

/-! ## Statistics helpers -/

theorem validValues_all_none (buf : List Reading) (h : ∀ r ∈ buf, r.val = none) :
    validValues buf = [] := by
  induction buf with
  | nil => rfl
  | cons a l ih =>
    have ha : a.val = none := h a (List.mem_cons_self a l)
    have ih2 := ih (fun r hr => h r (List.mem_cons_of_mem a hr))
    simp only [validValues, List.filterMap_cons, ha] at *
    exact ih2

theorem validValues_all_present (buf : List Reading)
    (h : ∀ r ∈ buf, ∃ q, r.val = some q ∧ q ≠ 0) :
    validValues buf = buf.filterMap Reading.val ∧
    (validValues buf).length = buf.length := by
  induction buf with
  | nil => exact ⟨rfl, rfl⟩
  | cons a l ih =>
    obtain ⟨q, hq, hq0⟩ := h a (List.mem_cons_self a l)
    obtain ⟨ih1, ih2⟩ := ih (fun r hr => h r (List.mem_cons_of_mem a hr))
    constructor
    · simp only [validValues, List.filterMap_cons, hq, if_neg hq0] at *
      rw [ih1]
    · simp only [validValues, List.filterMap_cons, hq, if_neg hq0,
        List.length_cons] at *
      rw [ih2]

theorem isEmpty_false_of_ne_nil {α : Type} {l : List α} (h : l ≠ []) :
    l.isEmpty = false := by
  cases l with
  | nil => exact absurd rfl h
  | cons a l => rfl

theorem foldl_min_le_init (l : List ℚ) (a : ℚ) : l.foldl min a ≤ a := by
  induction l generalizing a with
  | nil => exact le_refl a
  | cons y l ih => exact le_trans (ih (min a y)) (min_le_left a y)

theorem foldl_min_le_mem (l : List ℚ) (a : ℚ) (x : ℚ) (hx : x ∈ l) :
    l.foldl min a ≤ x := by
  induction l generalizing a with
  | nil => cases hx
  | cons y l ih =>
    rcases List.mem_cons.1 hx with rfl | hx2
    · exact le_trans (foldl_min_le_init l (min a x)) (min_le_right a x)
    · exact ih (min a y) hx2

theorem foldl_max_ge_init (l : List ℚ) (a : ℚ) : a ≤ l.foldl max a := by
  induction l generalizing a with
  | nil => exact le_refl a
  | cons y l ih => exact le_trans (le_max_left a y) (ih (max a y))

theorem foldl_max_ge_mem (l : List ℚ) (a : ℚ) (x : ℚ) (hx : x ∈ l) :
    x ≤ l.foldl max a := by
  induction l generalizing a with
  | nil => cases hx
  | cons y l ih =>
    rcases List.mem_cons.1 hx with rfl | hx2
    · exact le_trans (le_max_right a x) (foldl_max_ge_init l (max a x))
    · exact ih (max a y) hx2

theorem foldl_add_shift (l : List ℚ) (a : ℚ) :
    l.foldl (· + ·) a = a + l.foldl (· + ·) 0 := by
  induction l generalizing a with
  | nil => simp
  | cons x l ih =>
    simp only [List.foldl_cons]
    rw [ih (a + x), ih (0 + x)]
    ring

theorem listSum_cons (x : ℚ) (l : List ℚ) : listSum (x :: l) = x + listSum l := by
  simp only [listSum, List.foldl_cons]
  rw [foldl_add_shift l (0 + x)]
  ring

theorem mul_length_le_listSum (l : List ℚ) (b : ℚ) (h : ∀ x ∈ l, b ≤ x) :
    b * (l.length : ℚ) ≤ listSum l := by
  induction l with
  | nil => simp [listSum]
  | cons x l ih =>
    rw [listSum_cons]
    have hx := h x (List.mem_cons_self x l)
    have hl := ih (fun y hy => h y (List.mem_cons_of_mem x hy))
    push_cast [List.length_cons]
    calc b * ((l.length : ℚ) + 1) = b + b * (l.length : ℚ) := by ring
    _ ≤ x + listSum l := add_le_add hx hl

theorem listSum_le_mul_length (l : List ℚ) (b : ℚ) (h : ∀ x ∈ l, x ≤ b) :
    listSum l ≤ b * (l.length : ℚ) := by
  induction l with
  | nil => simp [listSum]
  | cons x l ih =>
    rw [listSum_cons]
    have hx := h x (List.mem_cons_self x l)
    have hl := ih (fun y hy => h y (List.mem_cons_of_mem x hy))
    push_cast [List.length_cons]
    calc x + listSum l ≤ b + b * (l.length : ℚ) := add_le_add hx hl
    _ = b * ((l.length : ℚ) + 1) := by ring

/-! ## C7 -/

/-- C7: on a history in which no reading has a present value, `stats()`
reports `min`, `max`, `mean` and `valid_ratio` as absent (`None`), never a
numeric default (and, being a total function here, never an exception). -/
theorem stats_all_absent (name : String) (buf : List Reading)
    (h : ∀ r ∈ buf, r.val = none) :
    (stats name buf).min = none ∧ (stats name buf).max = none ∧
    (stats name buf).mean = none ∧ (stats name buf).valid_ratio = none := by
  have hv : validValues buf = [] := validValues_all_none buf h
  simp [stats, hv]

/-- Witness for C7 on a two-element all-absent history. -/
theorem stats_all_absent_witness :
    (stats "s" [⟨0, none⟩, ⟨30, none⟩]).min = none ∧
    (stats "s" [⟨0, none⟩, ⟨30, none⟩]).max = none ∧
    (stats "s" [⟨0, none⟩, ⟨30, none⟩]).mean = none ∧
    (stats "s" [⟨0, none⟩, ⟨30, none⟩]).valid_ratio = none := by
  refine stats_all_absent "s" [⟨0, none⟩, ⟨30, none⟩] ?_
  intro r hr
  rcases List.mem_cons.1 hr with rfl | hr2
  · rfl
  · rw [List.mem_singleton] at hr2
    rw [hr2]

/-! ## C4 -/

/-- C4 counterexample: on the history `[[0, 0.0]]`, whose only reading has a
present value, the Python truthiness filter `if x[1]` discards the reading
`0.0`, so `stats()` reports `valid_ratio = None` instead of 1. -/
theorem stats_truthiness_cex :
    ([⟨0, some 0⟩] : List Reading).all (fun r => r.val.isSome) = true ∧
    (stats "s" [⟨0, some 0⟩]).valid_ratio ≠ some 1 := by
  constructor
  · rfl
  · decide

/-- C4 as amended: `stats()` computes `min`, `max` and `mean` over exactly
the readings whose value is present **and nonzero** (Python truthiness),
and `valid_ratio` equals that count divided by the total count when the
set is nonempty and is absent otherwise; in particular on a nonempty
history whose values are all present and nonzero, `valid_ratio = 1` and
`mean` is the arithmetic average of the values, while on an all-absent
history `valid_ratio` is absent. -/
theorem stats_valid_spec (name : String) (buf : List Reading) :
    ((stats name buf).min = listMin (validValues buf) ∧
     (stats name buf).max = listMax (validValues buf) ∧
     (stats name buf).valid_readings = (validValues buf).length ∧
     (stats name buf).total_readings = buf.length) ∧
    (validValues buf ≠ [] →
      (stats name buf).mean =
        some (listSum (validValues buf) / ((validValues buf).length : ℚ)) ∧
      (stats name buf).valid_ratio =
        some (((validValues buf).length : ℚ) / (buf.length : ℚ))) ∧
    (buf ≠ [] → (∀ r ∈ buf, ∃ q, r.val = some q ∧ q ≠ 0) →
      (stats name buf).valid_ratio = some 1 ∧
      (stats name buf).mean =
        some (listSum (buf.filterMap Reading.val) / (buf.length : ℚ))) ∧
    ((∀ r ∈ buf, r.val = none) → (stats name buf).valid_ratio = none) := by
  refine ⟨?_, ?_, ?_, ?_⟩
  · by_cases he : (validValues buf).isEmpty
    · rw [List.isEmpty_iff] at he
      simp [stats, he, listMin, listMax]
    · have he2 : (validValues buf).isEmpty = false := by
        cases h : (validValues buf).isEmpty
        · rfl
        · exact absurd h he
      simp [stats, he2]
  · intro hne
    have he2 : (validValues buf).isEmpty = false := isEmpty_false_of_ne_nil hne
    simp [stats, he2]
  · intro hbuf hall
    obtain ⟨hv1, hv2⟩ := validValues_all_present buf hall
    have hne : validValues buf ≠ [] := by
      intro h0
      rw [h0] at hv2
      exact hbuf (List.length_eq_zero.1 hv2.symm)
    have he2 : (validValues buf).isEmpty = false := isEmpty_false_of_ne_nil hne
    have htc : (buf.length : ℚ) ≠ 0 := by
      have : buf.length ≠ 0 := fun h0 => hbuf (List.length_eq_zero.1 h0)
      exact_mod_cast this
    have hv2q : ((validValues buf).length : ℚ) = (buf.length : ℚ) := by
      exact_mod_cast hv2
    constructor
    · simp only [stats, he2, Bool.false_eq_true, if_false]
      show some (((validValues buf).length : ℚ) / (buf.length : ℚ)) = some 1
      rw [hv2q, div_self htc]
    · simp only [stats, he2, Bool.false_eq_true, if_false]
      show some (listSum (validValues buf) / ((validValues buf).length : ℚ)) =
        some (listSum (buf.filterMap Reading.val) / (buf.length : ℚ))
      rw [hv2q, hv1]
  · intro h
    have hv : validValues buf = [] := validValues_all_none buf h
    simp [stats, hv]

/-- Witness for C4 on the all-present-nonzero history `[[0, 4], [30, 6]]`. -/
theorem stats_valid_spec_witness :
    (stats "s" [⟨0, some 4⟩, ⟨30, some 6⟩]).valid_ratio = some 1 ∧
    (stats "s" [⟨0, some 4⟩, ⟨30, some 6⟩]).mean =
      some (listSum (([⟨0, some 4⟩, ⟨30, some 6⟩] : List Reading).filterMap Reading.val) /
        (([⟨0, some 4⟩, ⟨30, some 6⟩] : List Reading).length : ℚ)) := by
  refine (stats_valid_spec "s" [⟨0, some 4⟩, ⟨30, some 6⟩]).2.2.1 (by simp) ?_
  intro r hr
  rcases List.mem_cons.1 hr with rfl | hr2
  · exact ⟨4, rfl, by norm_num⟩
  · rw [List.mem_singleton] at hr2
    rw [hr2]
    exact ⟨6, rfl, by norm_num⟩

/-! ## C10 -/

/-- C10: the `stats()` result always satisfies
`valid_readings ≤ total_readings`, and whenever at least one reading
passes the validity filter it also satisfies `min ≤ mean ≤ max` and
`0 < valid_ratio ≤ 1`, in exact arithmetic. -/
theorem stats_bounds (name : String) (buf : List Reading) :
    (stats name buf).valid_readings ≤ (stats name buf).total_readings ∧
    (1 ≤ (stats name buf).valid_readings →
      ∃ mn mx mu ρ, (stats name buf).min = some mn ∧
        (stats name buf).max = some mx ∧ (stats name buf).mean = some mu ∧
        (stats name buf).valid_ratio = some ρ ∧
        mn ≤ mu ∧ mu ≤ mx ∧ 0 < ρ ∧ ρ ≤ 1) := by
  have hle : (validValues buf).length ≤ buf.length :=
    List.length_filterMap_le _ _
  by_cases he : (validValues buf).isEmpty
  · rw [List.isEmpty_iff] at he
    constructor
    · simp [stats, he]
    · intro h1
      rw [show (stats name buf).valid_readings = (validValues buf).length by
        simp [stats, he]] at h1
      rw [he] at h1
      simp at h1
  · have he2 : (validValues buf).isEmpty = false := by
      cases h : (validValues buf).isEmpty
      · rfl
      · exact absurd h he
    obtain ⟨x, xs, hxl⟩ : ∃ x xs, validValues buf = x :: xs := by
      cases hv : validValues buf with
      | nil => rw [List.isEmpty_iff] at he; exact absurd hv he
      | cons x xs => exact ⟨x, xs, rfl⟩
    have hvc : 0 < ((validValues buf).length : ℚ) := by
      rw [hxl]
      push_cast [List.length_cons]
      positivity
    have htc0 : 0 < buf.length := by
      have : 0 < (validValues buf).length := by rw [hxl]; simp
      omega
    have htc : 0 < (buf.length : ℚ) := by exact_mod_cast htc0
    have hmn : ∀ y ∈ validValues buf, xs.foldl min x ≤ y := by
      rw [hxl]
      intro y hy
      rcases List.mem_cons.1 hy with rfl | hy2
      · exact foldl_min_le_init xs y
      · exact foldl_min_le_mem xs x y hy2
    have hmx : ∀ y ∈ validValues buf, y ≤ xs.foldl max x := by
      rw [hxl]
      intro y hy
      rcases List.mem_cons.1 hy with rfl | hy2
      · exact foldl_max_ge_init xs y
      · exact foldl_max_ge_mem xs x y hy2
    constructor
    · simp [stats, he2]
      omega
    · intro _
      refine ⟨xs.foldl min x, xs.foldl max x,
        listSum (validValues buf) / ((validValues buf).length : ℚ),
        ((validValues buf).length : ℚ) / (buf.length : ℚ), ?_, ?_, ?_, ?_, ?_, ?_, ?_, ?_⟩
      · simp [stats, he2, hxl, listMin]
      · simp [stats, he2, hxl, listMax]
      · simp [stats, he2]
      · simp [stats, he2]
      · rw [le_div_iff₀ hvc]
        exact mul_length_le_listSum _ _ hmn
      · rw [div_le_iff₀ hvc]
        exact listSum_le_mul_length _ _ hmx
      · exact div_pos hvc htc
      · rw [div_le_one htc]
        exact_mod_cast hle

/-- Witness for C10 on the history `[[0, 4], [30, none]]`. -/
theorem stats_bounds_witness :
    (stats "s" [⟨0, some 4⟩, ⟨30, none⟩]).valid_readings ≤
      (stats "s" [⟨0, some 4⟩, ⟨30, none⟩]).total_readings ∧
    ∃ mn mx mu ρ, (stats "s" [⟨0, some 4⟩, ⟨30, none⟩]).min = some mn ∧
      (stats "s" [⟨0, some 4⟩, ⟨30, none⟩]).max = some mx ∧
      (stats "s" [⟨0, some 4⟩, ⟨30, none⟩]).mean = some mu ∧
      (stats "s" [⟨0, some 4⟩, ⟨30, none⟩]).valid_ratio = some ρ ∧
      mn ≤ mu ∧ mu ≤ mx ∧ 0 < ρ ∧ ρ ≤ 1 := by
  refine ⟨(stats_bounds "s" [⟨0, some 4⟩, ⟨30, none⟩]).1, ?_⟩
  refine (stats_bounds "s" [⟨0, some 4⟩, ⟨30, none⟩]).2 ?_
  decide

/-! ## C3 -/

/-- For `now` inside the window `[interval*k, interval*k + interval)`, the
next aligned boundary `self.ts(offset=interval)` is `interval*(k+1)`. -/
theorem tsAligned_next (interval k : ℤ) (now : ℚ) (hi : 0 < interval)
    (hk : 0 ≤ k) (hlo : ((interval * k : ℤ) : ℚ) ≤ now)
    (hhi : now < ((interval * k : ℤ) : ℚ) + (interval : ℚ)) :
    tsAligned interval now (interval : ℚ) = interval * (k + 1) := by
  have hiq : (0 : ℚ) < (interval : ℚ) := by exact_mod_cast hi
  have hts0 : (0 : ℚ) ≤ ((interval * k : ℤ) : ℚ) := by
    have h0 : (0 : ℤ) ≤ interval * k := mul_nonneg hi.le hk
    exact_mod_cast h0
  have hnn : (0 : ℚ) ≤ (now + interval) / interval :=
    div_nonneg (by linarith) hiq.le
  rw [tsAligned, pyInt_eq_floor _ hnn]
  congr 1
  rw [Int.floor_eq_iff]
  push_cast at hlo hhi ⊢
  constructor
  · rw [le_div_iff₀ hiq]
    linarith
  · rw [div_lt_iff₀ hiq]
    linarith

/-- `BaseSensor.retryable(ts_)` returns `True` when the current time is
still in the window of `ts_` and before the midpoint of `ts_` and the next
boundary. -/
theorem retryable_before_midpoint (interval k : ℤ) (now : ℚ) (hi : 0 < interval)
    (hk : 0 ≤ k) (hlo : ((interval * k : ℤ) : ℚ) ≤ now)
    (hmid : now < (((interval * k : ℤ) : ℚ) +
      (((interval * k : ℤ) : ℚ) + (interval : ℚ))) / 2) :
    retryable interval (interval * k) now = true := by
  have hiq : (0 : ℚ) < (interval : ℚ) := by exact_mod_cast hi
  have hhi : now < ((interval * k : ℤ) : ℚ) + (interval : ℚ) := by
    push_cast at hmid ⊢
    linarith
  rw [retryable, tsAligned_next interval k now hi hk hlo hhi,
    decide_eq_true_iff]
  push_cast at hmid ⊢
  linarith

/-- `BaseSensor.retryable(ts_)` returns `False` once the current time has
reached the midpoint of `ts_` and the following boundary (also after
slipping past the window of `ts_`). -/
theorem retryable_past_midpoint (interval k : ℤ) (now : ℚ) (hi : 0 < interval)
    (hk : 0 ≤ k)
    (hmid : (((interval * k : ℤ) : ℚ) +
      (((interval * k : ℤ) : ℚ) + (interval : ℚ))) / 2 ≤ now) :
    retryable interval (interval * k) now = false := by
  have hiq : (0 : ℚ) < (interval : ℚ) := by exact_mod_cast hi
  have hts0 : (0 : ℚ) ≤ ((interval * k : ℤ) : ℚ) := by
    have h0 : (0 : ℤ) ≤ interval * k := mul_nonneg hi.le hk
    exact_mod_cast h0
  have hnow : (0 : ℚ) ≤ now := by
    push_cast at hmid
    push_cast at hts0
    linarith
  rw [retryable, decide_eq_false_iff_not, not_lt]
  by_cases hc : now < ((interval * k : ℤ) : ℚ) + (interval : ℚ)
  · have hlo : ((interval * k : ℤ) : ℚ) ≤ now := by
      push_cast at hmid ⊢
      linarith
    rw [tsAligned_next interval k now hi hk hlo hc]
    push_cast at hmid ⊢
    linarith
  · rw [not_lt] at hc
    have hfl : ((tsAligned interval now (interval : ℚ)) : ℚ) ≤ now + interval := by
      rw [tsAligned, pyInt_eq_floor _ (div_nonneg (by linarith) hiq.le)]
      push_cast
      have h1 : ((⌊(now + interval) / (interval : ℚ)⌋ : ℤ) : ℚ) ≤
          (now + interval) / interval := Int.floor_le _
      have h2 : (interval : ℚ) * ((⌊(now + interval) / (interval : ℚ)⌋ : ℤ) : ℚ) ≤
          (interval : ℚ) * ((now + interval) / interval) :=
        mul_le_mul_of_nonneg_left h1 hiq.le
      calc (interval : ℚ) * ((⌊(now + interval) / (interval : ℚ)⌋ : ℤ) : ℚ)
          ≤ (interval : ℚ) * ((now + interval) / interval) := h2
      _ = now + interval := by field_simp
    push_cast at hmid hfl hc ⊢
    linarith

/-- C3: in a polling cycle at aligned timestamp `ts_ = interval * k`, the
inner read loop of `BaseSensor.run`:
* on a `CrcInvalid` failure observed before the midpoint of `ts_` and the
  next boundary, retries immediately (the loop moves on to the next
  `_read()` attempt with no delay);
* on a `CrcInvalid` failure observed at or past that midpoint, stops and
  leaves `reading = None`, which the cycle records as an absent-value
  Reading;
* on any failure whose errno is not `SENSOR_CRC_INVALID` (`Unreadable`,
  `FormatInvalid`), never retries and immediately leaves `reading = None`;
* on a successful read, terminates with that value.
Every `SensorError` is caught inside the loop, so no read error escapes it
(the codomain of `readLoop` has no error outcome). -/
theorem retry_policy (interval k ts0 : ℤ) (reads : ℕ → ReadResult)
    (timeAt : ℕ → ℚ) (hi : 0 < interval) (hk : 0 ≤ k)
    (hts : ts0 = interval * k) :
    (∀ i fuel n, reads i = .err n → n ≠ SENSOR_CRC_INVALID →
      readLoop interval ts0 reads timeAt i (fuel + 1) = some none) ∧
    (∀ i fuel, reads i = .err SENSOR_CRC_INVALID →
      (ts0 : ℚ) ≤ timeAt i →
      timeAt i < ((ts0 : ℚ) + ((ts0 : ℚ) + (interval : ℚ))) / 2 →
      readLoop interval ts0 reads timeAt i (fuel + 1) =
        readLoop interval ts0 reads timeAt (i + 1) fuel) ∧
    (∀ i fuel, reads i = .err SENSOR_CRC_INVALID →
      ((ts0 : ℚ) + ((ts0 : ℚ) + (interval : ℚ))) / 2 ≤ timeAt i →
      readLoop interval ts0 reads timeAt i (fuel + 1) = some none) ∧
    (∀ i fuel v, reads i = .ok v →
      readLoop interval ts0 reads timeAt i (fuel + 1) = some (some v)) := by
  subst hts
  refine ⟨?_, ?_, ?_, ?_⟩
  · intro i fuel n hr hn
    simp only [readLoop, hr, if_pos hn]
  · intro i fuel hr hlo hmid
    have hret := retryable_before_midpoint interval k (timeAt i) hi hk hlo hmid
    simp only [readLoop, hr, hret]
    simp
  · intro i fuel hr hmid
    have hret := retryable_past_midpoint interval k (timeAt i) hi hk hmid
    simp only [readLoop, hr, hret]
    simp
  · intro i fuel v hr
    simp only [readLoop, hr]

/-- Witness for C3 with `interval = 30`, `ts_ = 30` (midpoint 45): a
non-retryable error at time 40, a CRC failure at 40 (retried), a CRC
failure at 46 (not retried, absent reading), and a success. -/
theorem retry_policy_witness :
    readLoop 30 30 (fun _ => .err 1) (fun _ => 40) 0 1 = some none ∧
    readLoop 30 30 (fun _ => .err 4) (fun _ => 40) 0 2 =
      readLoop 30 30 (fun _ => .err 4) (fun _ => 40) 1 1 ∧
    readLoop 30 30 (fun _ => .err 4) (fun _ => 46) 0 1 = some none ∧
    readLoop 30 30 (fun _ => .ok 21) (fun _ => 40) 0 1 = some (some 21) := by
  refine ⟨?_, ?_, ?_, ?_⟩
  · exact (retry_policy 30 1 30 (fun _ => .err 1) (fun _ => 40) (by norm_num)
      (by norm_num) (by norm_num)).1 0 0 1 rfl (by norm_num [SENSOR_CRC_INVALID])
  · exact (retry_policy 30 1 30 (fun _ => .err 4) (fun _ => 40) (by norm_num)
      (by norm_num) (by norm_num)).2.1 0 1 rfl (by norm_num) (by norm_num)
  · exact (retry_policy 30 1 30 (fun _ => .err 4) (fun _ => 46) (by norm_num)
      (by norm_num) (by norm_num)).2.2.1 0 0 rfl (by norm_num)
  · exact (retry_policy 30 1 30 (fun _ => .ok 21) (fun _ => 40) (by norm_num)
      (by norm_num) (by norm_num)).2.2.2 0 0 21 rfl

/-! ## C6 -/

/-- C6: `SysFSSensor._read` on the probe file text: not exactly two lines →
`FormatInvalid`; first line not ending in the CRC-pass marker `YES` →
`CrcInvalid`; no `'='` delimiter in the second line → `FormatInvalid`;
non-numeric payload after the last `'='` → `FormatInvalid`; otherwise the
numeric payload divided by 1000; an I/O failure opening or reading the
file → `Unreadable`. -/
theorem sysfs_read_spec (parseFloat : String → Option ℚ) :
    sysfsRead parseFloat none = .err SENSOR_UNREADABLE ∧
    (∀ lines : List String, lines.length ≠ 2 →
      sysfsRead parseFloat (some lines) = .err SENSOR_FORMAT_INVALID) ∧
    (∀ l0 l1 : String, l0.takeRight 3 ≠ "YES" →
      sysfsRead parseFloat (some [l0, l1]) = .err SENSOR_CRC_INVALID) ∧
    (∀ l0 l1 : String, l0.takeRight 3 = "YES" → afterLastEq l1 = none →
      sysfsRead parseFloat (some [l0, l1]) = .err SENSOR_FORMAT_INVALID) ∧
    (∀ (l0 l1 payload : String), l0.takeRight 3 = "YES" →
      afterLastEq l1 = some payload → parseFloat payload = none →
      sysfsRead parseFloat (some [l0, l1]) = .err SENSOR_FORMAT_INVALID) ∧
    (∀ (l0 l1 payload : String) (q : ℚ), l0.takeRight 3 = "YES" →
      afterLastEq l1 = some payload → parseFloat payload = some q →
      sysfsRead parseFloat (some [l0, l1]) = .ok (q / 1000)) := by
  refine ⟨rfl, ?_, ?_, ?_, ?_, ?_⟩
  · intro lines h
    match lines with
    | [] => rfl
    | [a] => rfl
    | [a, b] => simp at h
    | a :: b :: c :: rest => rfl
  · intro l0 l1 h
    simp only [sysfsRead, if_pos h]
  · intro l0 l1 hyes hnone
    simp only [sysfsRead, hyes, hnone]
    simp
  · intro l0 l1 payload hyes hsome hpf
    simp only [sysfsRead, hyes, hsome, hpf]
    simp
  · intro l0 l1 payload q hyes hsome hpf
    simp only [sysfsRead, hyes, hsome, hpf]
    simp

/-- Witness for C6, using the spec's own probe texts, with a numeric parser
that accepts exactly the payload `28250`. -/
theorem sysfs_read_spec_witness :
    sysfsRead (fun s => if s = "28250" then some 28250 else none) none =
      .err SENSOR_UNREADABLE ∧
    sysfsRead (fun s => if s = "28250" then some 28250 else none)
      (some ["just one line"]) = .err SENSOR_FORMAT_INVALID ∧
    sysfsRead (fun s => if s = "28250" then some 28250 else none)
      (some ["ff ff ff ff ff ff ff ff ff : crc=c9 NO",
             "8c 01 4b 46 7f ff 04 10 2e t=-62"]) = .err SENSOR_CRC_INVALID ∧
    sysfsRead (fun s => if s = "28250" then some 28250 else none)
      (some ["c4 01 4b 46 7f ff 0c 10 3b : crc=3b YES",
             "c4 01 4b 46 7f ff 0c 10 3b t 28250"]) = .err SENSOR_FORMAT_INVALID ∧
    sysfsRead (fun s => if s = "28250" then some 28250 else none)
      (some ["c4 01 4b 46 7f ff 0c 10 3b : crc=3b YES",
             "c4 01 4b 46 7f ff 0c 10 3b t=bad"]) = .err SENSOR_FORMAT_INVALID ∧
    sysfsRead (fun s => if s = "28250" then some 28250 else none)
      (some ["c4 01 4b 46 7f ff 0c 10 3b : crc=3b YES",
             "c4 01 4b 46 7f ff 0c 10 3b t=28250"]) = .ok (28250 / 1000) := by
  refine ⟨(sysfs_read_spec _).1,
    (sysfs_read_spec _).2.1 ["just one line"] (by decide),
    (sysfs_read_spec _).2.2.1 _ _ (by decide),
    (sysfs_read_spec _).2.2.2.1 _ _ (by decide) (by decide),
    (sysfs_read_spec _).2.2.2.2.1 _ _ "bad" (by decide) (by decide) (by decide),
    (sysfs_read_spec _).2.2.2.2.2 _ _ "28250" 28250 (by decide) (by decide) rfl⟩

/-! ## C9 -/

/-- If `_load_config` completes without raising, every configured entry
passed all three validation checks. -/
theorem loadConfig_eq_none_forall (B : String → ClassBinding)
    (entries : List (String × SensorConfig)) (h : loadConfig B entries = none) :
    ∀ p ∈ entries, validateEntry B p.1 p.2 = none := by
  induction entries with
  | nil =>
    intro p hp
    cases hp
  | cons e rest ih =>
    intro p hp
    obtain ⟨s, cfg⟩ := e
    rw [loadConfig] at h
    cases hval : validateEntry B s cfg with
    | some err =>
      rw [hval] at h
      exact absurd h (by simp)
    | none =>
      rw [hval] at h
      rcases List.mem_cons.1 hp with rfl | hp2
      · exact hval
      · exact ih h p hp2

/-- Conversely, if every configured entry validates, `_load_config`
completes without raising. -/
theorem loadConfig_eq_none_of_forall (B : String → ClassBinding)
    (entries : List (String × SensorConfig))
    (h : ∀ p ∈ entries, validateEntry B p.1 p.2 = none) :
    loadConfig B entries = none := by
  induction entries with
  | nil => rfl
  | cons e rest ih =>
    obtain ⟨s, cfg⟩ := e
    rw [loadConfig, h (s, cfg) (List.mem_cons_self _ _)]
    exact ih (fun p hp => h p (List.mem_cons_of_mem _ hp))

/-- `_init_sensors` on a run of variant entries followed by a non-variant
entry: the call on the non-variant raises, but every earlier sensor has
already been registered and started. -/
theorem initSensors_prefix_variant (B : String → ClassBinding)
    (pre : List (String × SensorConfig)) (s : String) (cfg : SensorConfig)
    (post : List (String × SensorConfig))
    (hpre : ∀ p ∈ pre, B p.2.className = ClassBinding.variant)
    (hbad : B cfg.className = ClassBinding.nonVariant) :
    initSensors B (pre ++ (s, cfg) :: post) =
      ⟨some (.initTypeError s), pre.map Prod.fst, pre.map Prod.fst⟩ := by
  induction pre with
  | nil =>
    simp only [List.nil_append, initSensors, hbad, List.map_nil]
  | cons a rest ih =>
    obtain ⟨s2, cfg2⟩ := a
    have hB : B cfg2.className = ClassBinding.variant :=
      hpre (s2, cfg2) (List.mem_cons_self _ _)
    have ih2 := ih (fun p hp => hpre p (List.mem_cons_of_mem _ hp))
    simp only [List.cons_append, initSensors, hB, List.append_eq, ih2,
      List.map_cons]

/-- C9 counterexample: the config `{a: MockSensor, b: {class: time}}`.
`time` is imported at the top of `sensors.py`, so the `getattr` lookup in
`_load_config` finds it, although it is no sensor variant; validation
passes, and `_init_sensors` then instantiates, registers and starts sensor
`a` before `time(name='b')` raises `TypeError`.  Construction fails, but a
sensor was instantiated and started and the registry is not empty,
refuting the claim as stated. -/
theorem manager_unknown_variant_cex :
    (managerInit
      (fun c => if c = "MockSensor" then ClassBinding.variant
        else if c = "time" then ClassBinding.nonVariant else ClassBinding.absent)
      [("a", ⟨"MockSensor", none, none⟩), ("b", ⟨"time", none, none⟩)]).error.isSome
      = true ∧
    (managerInit
      (fun c => if c = "MockSensor" then ClassBinding.variant
        else if c = "time" then ClassBinding.nonVariant else ClassBinding.absent)
      [("a", ⟨"MockSensor", none, none⟩), ("b", ⟨"time", none, none⟩)]).registry
      = ["a"] ∧
    (managerInit
      (fun c => if c = "MockSensor" then ClassBinding.variant
        else if c = "time" then ClassBinding.nonVariant else ClassBinding.absent)
      [("a", ⟨"MockSensor", none, none⟩), ("b", ⟨"time", none, none⟩)]).started
      = ["a"] := by
  refine ⟨?_, ?_, ?_⟩ <;> rfl

/-- C9 as amended: for every module-attribute map `B` — `getattr` succeeds
on the module's attributes, which include non-variant bindings such as the
imported module `time` — (1) if any configured entry has a class name that
is not an attribute of the module, or a `tags` property present that is
not list-shaped, or an `args` property present that is not mapping-shaped,
then `SensorManager` construction fails during `_load_config` and no
sensor is instantiated or started (the registry remains empty); but (2) an
entry whose class name is a non-variant module attribute passes
validation, and although construction still fails (in `_init_sensors`),
every sensor configured before that entry has by then been instantiated,
registered and started. -/
theorem manager_config_spec (B : String → ClassBinding)
    (entries : List (String × SensorConfig)) :
    ((∃ p ∈ entries, B p.2.className = ClassBinding.absent ∨
        (∃ t, p.2.tags = some t ∧ isListShaped t = false) ∨
        (∃ a, p.2.args = some a ∧ isMapShaped a = false)) →
      (managerInit B entries).error.isSome = true ∧
      (managerInit B entries).registry = [] ∧
      (managerInit B entries).started = []) ∧
    (∀ (pre : List (String × SensorConfig)) (s : String) (cfg : SensorConfig)
        (post : List (String × SensorConfig)),
      entries = pre ++ (s, cfg) :: post →
      (∀ p ∈ pre, B p.2.className = ClassBinding.variant ∧
        validateEntry B p.1 p.2 = none) →
      validateEntry B s cfg = none →
      B cfg.className = ClassBinding.nonVariant →
      (∀ p ∈ post, validateEntry B p.1 p.2 = none) →
      (managerInit B entries).error.isSome = true ∧
      (managerInit B entries).registry = pre.map Prod.fst ∧
      (managerInit B entries).started = pre.map Prod.fst) := by
  constructor
  · intro h
    obtain ⟨p, hp, hbad⟩ := h
    have hv : validateEntry B p.1 p.2 ≠ none := by
      rcases hbad with h1 | ⟨t, ht, hts⟩ | ⟨a, ha, has⟩
      · simp [validateEntry, h1]
      · cases hB : B p.2.className with
        | absent => simp [validateEntry, hB]
        | variant => simp [validateEntry, hB, ht, hts]
        | nonVariant => simp [validateEntry, hB, ht, hts]
      · cases hB : B p.2.className with
        | absent => simp [validateEntry, hB]
        | variant =>
          by_cases htl : isListShaped (p.2.tags.getD (Yaml.list [])) = true
          · simp [validateEntry, hB, htl, ha, has]
          · simp [validateEntry, hB, htl]
        | nonVariant =>
          by_cases htl : isListShaped (p.2.tags.getD (Yaml.list [])) = true
          · simp [validateEntry, hB, htl, ha, has]
          · simp [validateEntry, hB, htl]
    have hl : loadConfig B entries ≠ none :=
      fun hok => hv (loadConfig_eq_none_forall B entries hok p hp)
    cases hcase : loadConfig B entries with
    | none => exact absurd hcase hl
    | some e => simp [managerInit, hcase]
  · intro pre s cfg post hsplit hpre hs hbad hpost
    subst hsplit
    have hload : loadConfig B (pre ++ (s, cfg) :: post) = none := by
      refine loadConfig_eq_none_of_forall B _ ?_
      intro p hp
      rcases List.mem_append.1 hp with hp1 | hp2
      · exact (hpre p hp1).2
      · rcases List.mem_cons.1 hp2 with rfl | hp3
        · exact hs
        · exact hpost p hp3
    have hinit := initSensors_prefix_variant B pre s cfg post
      (fun p hp => (hpre p hp).1) hbad
    rw [managerInit, hload, hinit]
    exact ⟨rfl, rfl, rfl⟩

/-- Witness for C9: under a module-attribute map binding `MockSensor` as a
variant, `time` as a non-variant attribute and nothing else, the config
`{a: MockSensor, b: Nope}` fails validation with an empty registry and
nothing started, while `{a: MockSensor, b: {class: time}}` fails later
with sensor `a` already registered and started. -/
theorem manager_config_spec_witness :
    ((managerInit
      (fun c => if c = "MockSensor" then ClassBinding.variant
        else if c = "time" then ClassBinding.nonVariant else ClassBinding.absent)
      [("a", ⟨"MockSensor", none, none⟩), ("b", ⟨"Nope", none, none⟩)]).error.isSome
      = true ∧
     (managerInit
      (fun c => if c = "MockSensor" then ClassBinding.variant
        else if c = "time" then ClassBinding.nonVariant else ClassBinding.absent)
      [("a", ⟨"MockSensor", none, none⟩), ("b", ⟨"Nope", none, none⟩)]).registry
      = [] ∧
     (managerInit
      (fun c => if c = "MockSensor" then ClassBinding.variant
        else if c = "time" then ClassBinding.nonVariant else ClassBinding.absent)
      [("a", ⟨"MockSensor", none, none⟩), ("b", ⟨"Nope", none, none⟩)]).started
      = []) ∧
    ((managerInit
      (fun c => if c = "MockSensor" then ClassBinding.variant
        else if c = "time" then ClassBinding.nonVariant else ClassBinding.absent)
      [("a", ⟨"MockSensor", none, none⟩), ("b", ⟨"time", none, none⟩)]).registry
      = List.map Prod.fst [("a", (⟨"MockSensor", none, none⟩ : SensorConfig))] ∧
     (managerInit
      (fun c => if c = "MockSensor" then ClassBinding.variant
        else if c = "time" then ClassBinding.nonVariant else ClassBinding.absent)
      [("a", ⟨"MockSensor", none, none⟩), ("b", ⟨"time", none, none⟩)]).started
      = List.map Prod.fst [("a", (⟨"MockSensor", none, none⟩ : SensorConfig))]) := by
  constructor
  · exact (manager_config_spec _ _).1
      ⟨("b", ⟨"Nope", none, none⟩),
        List.mem_cons_of_mem _ (List.mem_cons_self _ _), Or.inl (by decide)⟩
  · have h := (manager_config_spec
      (fun c => if c = "MockSensor" then ClassBinding.variant
        else if c = "time" then ClassBinding.nonVariant else ClassBinding.absent)
      [("a", ⟨"MockSensor", none, none⟩), ("b", ⟨"time", none, none⟩)]).2
      [("a", ⟨"MockSensor", none, none⟩)] "b" ⟨"time", none, none⟩ []
      rfl (by decide) (by decide) (by decide) (by decide)
    exact ⟨h.2.1, h.2.2⟩
